import Mathlib

/-!
Verification of the Focus Lab audio engine (`src/js/audio-engine.js`).

The engine's numeric state and pure computations are embedded shallowly:
JavaScript numbers become `ℚ` where the code only uses field arithmetic and
comparisons, and `ℝ` where transcendental functions (`Math.pow`, `Math.sin`)
appear.  Stateful module-level variables become an explicit `EngineState`
record with the public operations as state-transition functions.
-/

namespace FocusLab

/-- A control point of an automation curve: the `{time, value}` objects of
`audio-engine.js`. -/
structure CurvePoint where
  time : ℚ
  value : ℚ
deriving DecidableEq, Repr

/-- A silence block `{start, duration}` from a profile's silence layer. -/
structure SilenceBlock where
  start : ℚ
  duration : ℚ
deriving DecidableEq, Repr

/-- The modulation layer `{type, intensity}` of a profile. -/
structure Modulation where
  type : String
  intensity : ℚ
deriving DecidableEq, Repr

/-- A sound profile, flattening the `profile.layers.*` shape used by the
engine: `layers.baseFrequency.curve`, `layers.texture.densityMap`,
`layers.modulation`, `layers.silence.blocks`. -/
structure Profile where
  id : String
  name : String
  duration : ℚ
  baseFrequencyCurve : List CurvePoint
  textureDensityMap : List CurvePoint
  modulation : Modulation
  silenceBlocks : List SilenceBlock
deriving DecidableEq, Repr

/-- The `proModeAdjustments` record of the engine. -/
structure ProModeAdjustments where
  frequencyOffset : ℚ
  textureOffset : ℚ
  modulationOffset : ℚ
deriving DecidableEq, Repr

/-! ## Curve interpolation (`interpolateCurve`, lines 301-323) -/

/-- The bracket-search loop of `interpolateCurve`: scan adjacent pairs in
array order and return the first pair `(lower, upper)` with
`lower.time ≤ progress ≤ upper.time`, or `none` when no pair matches. -/
def findBracket : List CurvePoint → ℚ → Option (CurvePoint × CurvePoint)
  | a :: b :: rest, progress =>
    if a.time ≤ progress ∧ progress ≤ b.time then some (a, b)
    else findBracket (b :: rest) progress
  | _, _ => none

/-- The tail of `interpolateCurve` after the bracket is fixed: linear
interpolation between `lower` and `upper`, returning `lower.value` when the
bracket's time range is zero. -/
def lerpSegment (lower upper : CurvePoint) (progress : ℚ) : ℚ :=
  if upper.time - lower.time = 0 then lower.value
  else lower.value + (upper.value - lower.value) *
    ((progress - lower.time) / (upper.time - lower.time))

/-- `interpolateCurve(curve, progress)`: `0.5` for an empty curve, the sole
value for a one-point curve, otherwise linear interpolation on the first
bracketing pair, falling back to the pair (first point, last point) when the
scan finds no bracket. -/
def interpolateCurve (curve : List CurvePoint) (progress : ℚ) : ℚ :=
  match curve with
  | [] => 1/2
  | [pt] => pt.value
  | a :: b :: rest =>
    match findBracket (a :: b :: rest) progress with
    | some (lower, upper) => lerpSegment lower upper progress
    | none => lerpSegment a ((b :: rest).getLast (List.cons_ne_nil b rest)) progress

/-! ### Interpolator lemmas -/

theorem findBracket_sound (curve : List CurvePoint) (p : ℚ) (a b : CurvePoint)
    (h : findBracket curve p = some (a, b)) :
    a ∈ curve ∧ b ∈ curve ∧ a.time ≤ p ∧ p ≤ b.time := by
  induction curve with
  | nil => simp [findBracket] at h
  | cons x xs ih =>
    cases xs with
    | nil => simp [findBracket] at h
    | cons y ys =>
      rw [findBracket] at h
      split at h
      · rename_i hcond
        obtain ⟨rfl, rfl⟩ : x = a ∧ y = b := by simpa using h
        exact ⟨List.mem_cons_self _ _, List.mem_cons_of_mem _ (List.mem_cons_self _ _),
          hcond.1, hcond.2⟩
      · obtain ⟨ha, hb, h1, h2⟩ := ih h
        exact ⟨List.mem_cons_of_mem _ ha, List.mem_cons_of_mem _ hb, h1, h2⟩

theorem findBracket_none_tail (x : CurvePoint) (xs : List CurvePoint) (p : ℚ)
    (h : findBracket (x :: xs) p = none) (hx : x.time ≤ p) :
    ∀ y ∈ xs, y.time < p := by
  induction xs generalizing x with
  | nil => intro y hy; simp at hy
  | cons z zs ih =>
    rw [findBracket] at h
    split at h
    · exact absurd h (by simp)
    · rename_i hcond
      have hz : z.time < p := by
        by_contra hle
        exact hcond ⟨hx, not_lt.mp hle⟩
      intro y hy
      rcases List.mem_cons.mp hy with rfl | hy'
      · exact hz
      · exact ih z h hz.le y hy'

theorem findBracket_none_getLast (l : List CurvePoint) (p : ℚ) (y : CurvePoint)
    (h : findBracket l p = none) (hy : y ∈ l) (hyp : y.time ≤ p) (hne : l ≠ []) :
    (l.getLast hne).time ≤ p := by
  induction l generalizing y with
  | nil => simp at hy
  | cons x xs ih =>
    cases xs with
    | nil =>
      obtain rfl : y = x := by simpa using hy
      simpa using hyp
    | cons z zs =>
      rw [findBracket] at h
      have hnone : findBracket (z :: zs) p = none := by
        split at h
        · exact absurd h (by simp)
        · exact h
      rw [List.getLast_cons (List.cons_ne_nil z zs)]
      rcases List.mem_cons.mp hy with rfl | hy'
      · have hz : z.time < p := by
          split at h
          · exact absurd h (by simp)
          · rename_i hcond
            by_contra hle
            exact hcond ⟨hyp, not_lt.mp hle⟩
        exact ih z hnone (List.mem_cons_self _ _) hz.le (List.cons_ne_nil z zs)
      · exact ih y hnone hy' hyp (List.cons_ne_nil z zs)

theorem findBracket_none_head (x : CurvePoint) (xs : List CurvePoint) (p : ℚ)
    (h : findBracket (x :: xs) p = none)
    (hspan : ∃ q ∈ x :: xs, p ≤ q.time) : p ≤ x.time := by
  by_cases hx : x.time ≤ p
  · obtain ⟨q, hq, hpq⟩ := hspan
    rcases List.mem_cons.mp hq with rfl | hq'
    · exact hpq
    · have := findBracket_none_tail x xs p h hx q hq'
      linarith
  · exact (not_le.mp hx).le

theorem lerp_convex_bounds (l u t lo hi : ℚ) (ht0 : 0 ≤ t) (ht1 : t ≤ 1)
    (hl1 : lo ≤ l) (hl2 : l ≤ hi) (hu1 : lo ≤ u) (hu2 : u ≤ hi) :
    lo ≤ l + (u - l) * t ∧ l + (u - l) * t ≤ hi := by
  constructor
  · nlinarith [mul_nonneg (by linarith : (0:ℚ) ≤ 1 - t) (by linarith : (0:ℚ) ≤ l - lo),
      mul_nonneg ht0 (by linarith : (0:ℚ) ≤ u - lo)]
  · nlinarith [mul_nonneg (by linarith : (0:ℚ) ≤ 1 - t) (by linarith : (0:ℚ) ≤ hi - l),
      mul_nonneg ht0 (by linarith : (0:ℚ) ≤ hi - u)]

theorem lerpSegment_bounds (lower upper : CurvePoint) (p lo hi : ℚ)
    (hbr : (lower.time ≤ p ∧ p ≤ upper.time) ∨ (upper.time ≤ p ∧ p ≤ lower.time))
    (hl1 : lo ≤ lower.value) (hl2 : lower.value ≤ hi)
    (hu1 : lo ≤ upper.value) (hu2 : upper.value ≤ hi) :
    lo ≤ lerpSegment lower upper p ∧ lerpSegment lower upper p ≤ hi := by
  rw [lerpSegment]
  split
  · exact ⟨hl1, hl2⟩
  · rename_i hr
    rcases hbr with ⟨h1, h2⟩ | ⟨h1, h2⟩
    · have hpos : 0 < upper.time - lower.time := by
        rcases lt_or_eq_of_le (h1.trans h2) with hlt | heq
        · linarith
        · exact absurd (by linarith) hr
      refine lerp_convex_bounds _ _ _ _ _ ?_ ?_ hl1 hl2 hu1 hu2
      · exact div_nonneg (by linarith) hpos.le
      · rw [div_le_one hpos]; linarith
    · have hneg : 0 < lower.time - upper.time := by
        rcases lt_or_eq_of_le (h1.trans h2) with hlt | heq
        · linarith
        · exact absurd (by linarith) hr
      have heqt : (p - lower.time) / (upper.time - lower.time)
          = (lower.time - p) / (lower.time - upper.time) := by
        rw [div_eq_div_iff (by linarith) (by linarith)]
        ring
      rw [heqt]
      refine lerp_convex_bounds _ _ _ _ _ ?_ ?_ hl1 hl2 hu1 hu2
      · exact div_nonneg (by linarith) hneg.le
      · rw [div_le_one hneg]; linarith

/-- C9: `interpolate([], p) = 0.5` and `interpolate([{t, x}], p) = x` for all
`p` — the empty curve yields the neutral default and a single-point curve
yields its sole value regardless of progress. -/
theorem interpolateCurve_degenerate :
    (∀ p : ℚ, interpolateCurve [] p = 1/2) ∧
    (∀ (pt : CurvePoint) (p : ℚ), interpolateCurve [pt] p = pt.value) :=
  ⟨fun _ => rfl, fun _ _ => rfl⟩

/-- C2: for a curve with at least two points and a progress inside the
curve's time span, the interpolated value never overshoots: it stays inside
any interval `[lo, hi]` containing all of the curve's values — in particular
inside `[min values, max values]` — even when the points are unsorted or
carry duplicate times. -/
theorem interpolateCurve_no_overshoot (curve : List CurvePoint) (p lo hi : ℚ)
    (hlen : 2 ≤ curve.length) (hp0 : 0 ≤ p) (hp1 : p ≤ 1)
    (hlo : ∀ q ∈ curve, lo ≤ q.value) (hhi : ∀ q ∈ curve, q.value ≤ hi)
    (hspanLo : ∃ q ∈ curve, q.time ≤ p) (hspanHi : ∃ q ∈ curve, p ≤ q.time) :
    lo ≤ interpolateCurve curve p ∧ interpolateCurve curve p ≤ hi := by
  match curve, hlen with
  | a :: b :: rest, _ =>
    rw [interpolateCurve]
    cases hfb : findBracket (a :: b :: rest) p with
    | some pr =>
      obtain ⟨lower, upper⟩ := pr
      obtain ⟨ha, hb, h1, h2⟩ := findBracket_sound _ _ _ _ hfb
      exact lerpSegment_bounds _ _ _ _ _ (Or.inl ⟨h1, h2⟩)
        (hlo _ ha) (hhi _ ha) (hlo _ hb) (hhi _ hb)
    | none =>
      have hlast_mem : (b :: rest).getLast (List.cons_ne_nil b rest) ∈ a :: b :: rest :=
        List.mem_cons_of_mem a (List.getLast_mem _)
      have hup : p ≤ a.time := findBracket_none_head a (b :: rest) p hfb hspanHi
      have hlow : ((b :: rest).getLast (List.cons_ne_nil b rest)).time ≤ p := by
        obtain ⟨q, hq, hqt⟩ := hspanLo
        have hall := findBracket_none_getLast (a :: b :: rest) p q hfb hq hqt
          (List.cons_ne_nil a (b :: rest))
        rwa [List.getLast_cons (List.cons_ne_nil b rest)] at hall
      exact lerpSegment_bounds _ _ _ _ _ (Or.inr ⟨hlow, hup⟩)
        (hlo a (List.mem_cons_self _ _)) (hhi a (List.mem_cons_self _ _))
        (hlo _ hlast_mem) (hhi _ hlast_mem)

/-- Witness for C2 at the concrete curve `[{0,0},{1,1}]` and progress `0`. -/
theorem interpolateCurve_no_overshoot_witness :
    0 ≤ interpolateCurve [⟨0, 0⟩, ⟨1, 1⟩] 0 ∧ interpolateCurve [⟨0, 0⟩, ⟨1, 1⟩] 0 ≤ 1 :=
  interpolateCurve_no_overshoot [⟨0, 0⟩, ⟨1, 1⟩] 0 0 1 (by decide) le_rfl (by decide)
    (by decide) (by decide) ⟨⟨0, 0⟩, by decide⟩ ⟨⟨0, 0⟩, by decide⟩

/-! ## Silence gating (`applySilenceBlocks`, lines 352-368) -/

/-- The block-scan loop of `applySilenceBlocks`: `isSilent` is true when the
current time in seconds falls inside any block's `[start, start + duration)`
interval. -/
def isSilentAt (blocks : List SilenceBlock) (tSec : ℚ) : Bool :=
  blocks.any fun block =>
    decide (block.start ≤ tSec) && decide (tSec < block.start + block.duration)

/-- The gain target `applySilenceBlocks` pushes to the silence gate at a given
progress: current time is `progress * sessionDuration`, target is `0` when
silent and `1` otherwise. -/
def applySilenceBlocksTarget (blocks : List SilenceBlock) (sessionDuration progress : ℚ) : ℚ :=
  if isSilentAt blocks (progress * sessionDuration) then 0 else 1

theorem isSilentAt_iff (blocks : List SilenceBlock) (tSec : ℚ) :
    isSilentAt blocks tSec = true ↔
      ∃ b ∈ blocks, b.start ≤ tSec ∧ tSec < b.start + b.duration := by
  simp [isSilentAt]

/-- C6: the silence-gate target computed in a tick is `0` exactly when the
elapsed seconds `p · durationSeconds` fall inside some block's half-open
interval `[start, start + duration)`, and `1` otherwise; consequently the
overlapping blocks `{start 10, duration 5}` and `{start 12, duration 5}` gate
as their union, silencing exactly `[10, 17)`. -/
theorem silence_gate_spec :
    (∀ (blocks : List SilenceBlock) (dur p : ℚ),
      (applySilenceBlocksTarget blocks dur p = 0 ↔
        ∃ b ∈ blocks, b.start ≤ p * dur ∧ p * dur < b.start + b.duration) ∧
      (applySilenceBlocksTarget blocks dur p = 1 ↔
        ¬ ∃ b ∈ blocks, b.start ≤ p * dur ∧ p * dur < b.start + b.duration)) ∧
    (∀ t : ℚ, applySilenceBlocksTarget [⟨10, 5⟩, ⟨12, 5⟩] 1 t = 0 ↔ 10 ≤ t ∧ t < 17) := by
  have key : ∀ (blocks : List SilenceBlock) (dur p : ℚ),
      (applySilenceBlocksTarget blocks dur p = 0 ↔
        ∃ b ∈ blocks, b.start ≤ p * dur ∧ p * dur < b.start + b.duration) ∧
      (applySilenceBlocksTarget blocks dur p = 1 ↔
        ¬ ∃ b ∈ blocks, b.start ≤ p * dur ∧ p * dur < b.start + b.duration) := by
    intro blocks dur p
    rw [applySilenceBlocksTarget]
    by_cases hs : isSilentAt blocks (p * dur) = true
    · rw [if_pos hs]
      rw [isSilentAt_iff] at hs
      constructor
      · exact ⟨fun _ => hs, fun _ => rfl⟩
      · exact ⟨fun h => absurd h (by norm_num), fun h => absurd hs h⟩
    · rw [if_neg hs]
      rw [isSilentAt_iff] at hs
      constructor
      · exact ⟨fun h => absurd h (by norm_num), fun h => absurd h hs⟩
      · exact ⟨fun _ => hs, fun _ => rfl⟩
  refine ⟨key, ?_⟩
  · intro t
    rw [(key [⟨10, 5⟩, ⟨12, 5⟩] 1 t).1]
    constructor
    · rintro ⟨b, hb, h1, h2⟩
      rw [mul_one] at h1 h2
      rcases List.mem_cons.mp hb with rfl | hb'
      · simp only at h1 h2
        exact ⟨by linarith, by linarith⟩
      · obtain rfl : b = (⟨12, 5⟩ : SilenceBlock) := by simpa using hb'
        simp only at h1 h2
        exact ⟨by linarith, by linarith⟩
    · rintro ⟨h1, h2⟩
      by_cases hmid : t < 15
      · exact ⟨⟨10, 5⟩, by simp, by rw [mul_one]; exact h1,
          by rw [mul_one]; show t < (10:ℚ) + 5; linarith⟩
      · refine ⟨⟨12, 5⟩, by simp, ?_, ?_⟩
        · rw [mul_one]; show (12:ℚ) ≤ t; linarith [not_lt.mp hmid]
        · rw [mul_one]; show t < (12:ℚ) + 5; linarith

/-! ## Engine state and public operations -/

/-- The module-level mutable state of the engine that the public operations
touch: `isPlaying`, `currentProfile`, `sessionStartTime`, `sessionDuration`,
`proModeEnabled`, `interactionCount`, `proModeAdjustments`.  The Web Audio
node handles are external resources and carry no data the claims mention. -/
structure EngineState where
  isPlaying : Bool
  currentProfile : Option Profile
  sessionStartTime : ℚ
  sessionDuration : ℚ
  proModeEnabled : Bool
  interactionCount : ℕ
  adjustments : ProModeAdjustments
deriving DecidableEq, Repr

/-- The engine's initial module state (lines 23-36). -/
def initState : EngineState :=
  { isPlaying := false
    currentProfile := none
    sessionStartTime := 0
    sessionDuration := 0
    proModeEnabled := false
    interactionCount := 0
    adjustments := ⟨0, 0, 0⟩ }

/-- `loadProfile(profile)` (lines 178-189): stores the profile, copies its
duration, and resets the adaptive adjustments and interaction count. -/
def loadProfileFn (profile : Profile) (s : EngineState) : EngineState :=
  { s with
    currentProfile := some profile
    sessionDuration := profile.duration
    adjustments := ⟨0, 0, 0⟩
    interactionCount := 0 }

/-- `setProMode(enabled)` (lines 410-421): records the flag and, when
disabling, resets the adjustments. -/
def setProModeFn (enabled : Bool) (s : EngineState) : EngineState :=
  if enabled then { s with proModeEnabled := true }
  else { s with proModeEnabled := false, adjustments := ⟨0, 0, 0⟩ }

/-- `play()` (lines 195-210): no-op when already playing or when no profile
is loaded; otherwise marks playing and records the start time (`now` stands
for `audioContext.currentTime`). -/
def playFn (now : ℚ) (s : EngineState) : EngineState :=
  if s.isPlaying then s
  else
    match s.currentProfile with
    | none => s
    | some _ => { s with isPlaying := true, sessionStartTime := now }

/-- `pause()` (lines 215-230): no-op when not playing; otherwise clears the
playing flag (oscillator/frame teardown is external). -/
def pauseFn (s : EngineState) : EngineState :=
  if s.isPlaying then { s with isPlaying := false } else s

/-- `stop()` (lines 235-238): `pause()` plus clearing the start time. -/
def stopFn (s : EngineState) : EngineState :=
  { pauseFn s with sessionStartTime := 0 }

/-- `recordInteraction()` (lines 427-445): no-op unless Pro Mode is enabled
and a session is playing; otherwise increments the count, computes the
interactions-per-minute rate from the elapsed time `now - sessionStartTime`,
and nudges the clamped offsets.  `now` stands for `audioContext.currentTime`
read through `getProgress()`. -/
def recordInteractionFn (now : ℚ) (s : EngineState) : EngineState :=
  if s.proModeEnabled && s.isPlaying then
    let count := s.interactionCount + 1
    let elapsed := now - s.sessionStartTime
    let rate := (count : ℚ) / (elapsed / 60)
    let adj := s.adjustments
    let adjNew :=
      if 2 < rate then
        { adj with
          frequencyOffset := max (-(1/10)) (adj.frequencyOffset - 1/100)
          textureOffset := max (-(1/10)) (adj.textureOffset - 1/100) }
      else if 300 < elapsed ∧ rate < 1/2 then
        { adj with modulationOffset := min (1/10) (adj.modulationOffset + 1/200) }
      else adj
    { s with interactionCount := count, adjustments := adjNew }
  else s

/-- The `wasAdapted` flag computed in `onSessionComplete` (lines 396-400). -/
def wasAdapted (s : EngineState) : Bool :=
  s.proModeEnabled &&
    (s.adjustments.frequencyOffset != 0 ||
     s.adjustments.textureOffset != 0 ||
     s.adjustments.modulationOffset != 0)

/-- One public operation with its environment input (the audio-clock reading
for `play` and `recordInteraction`). -/
inductive Op where
  | recordInteraction (now : ℚ)
  | setProMode (enabled : Bool)
  | loadProfile (profile : Profile)
  | play (now : ℚ)
  | pause
  | stop
deriving Repr

/-- Apply one public operation to the state. -/
def applyOp (s : EngineState) : Op → EngineState
  | .recordInteraction now => recordInteractionFn now s
  | .setProMode enabled => setProModeFn enabled s
  | .loadProfile profile => loadProfileFn profile s
  | .play now => playFn now s
  | .pause => pauseFn s
  | .stop => stopFn s

/-- The state after a finite sequence of public operations from the initial
state. -/
def run (ops : List Op) : EngineState :=
  ops.foldl applyOp initState

/-! ### The adaptive-state invariant -/

/-- Invariant maintained by every public operation: `frequencyOffset` and
`textureOffset` stay in `[-0.1, 0]`, `modulationOffset` stays in `[0, 0.1]`,
and whenever Pro Mode is disabled all three offsets are zero. -/
structure AdaptiveInv (s : EngineState) : Prop where
  freq_lb : -(1/10) ≤ s.adjustments.frequencyOffset
  freq_ub : s.adjustments.frequencyOffset ≤ 0
  text_lb : -(1/10) ≤ s.adjustments.textureOffset
  text_ub : s.adjustments.textureOffset ≤ 0
  mod_lb : 0 ≤ s.adjustments.modulationOffset
  mod_ub : s.adjustments.modulationOffset ≤ 1/10
  off_zero : s.proModeEnabled = false → s.adjustments = ⟨0, 0, 0⟩

theorem adaptiveInv_init : AdaptiveInv initState := by
  constructor <;> simp [initState]

theorem adaptiveInv_applyOp {s : EngineState} (h : AdaptiveInv s) (op : Op) :
    AdaptiveInv (applyOp s op) := by
  obtain ⟨f1, f2, t1, t2, m1, m2, z⟩ := h
  cases op with
  | recordInteraction now =>
    simp only [applyOp, recordInteractionFn]
    by_cases hc : (s.proModeEnabled && s.isPlaying) = true
    · rw [if_pos hc]
      have hpm : s.proModeEnabled = true := (Bool.and_eq_true _ _ ▸ hc).1
      split
      · exact {
          freq_lb := le_max_left _ _
          freq_ub := max_le (by norm_num) (by linarith)
          text_lb := le_max_left _ _
          text_ub := max_le (by norm_num) (by linarith)
          mod_lb := m1
          mod_ub := m2
          off_zero := by intro hz; rw [hpm] at hz; exact absurd hz (by simp) }
      · split
        · exact {
            freq_lb := f1
            freq_ub := f2
            text_lb := t1
            text_ub := t2
            mod_lb := le_min (by norm_num) (by linarith)
            mod_ub := min_le_left _ _
            off_zero := by intro hz; rw [hpm] at hz; exact absurd hz (by simp) }
        · exact {
            freq_lb := f1
            freq_ub := f2
            text_lb := t1
            text_ub := t2
            mod_lb := m1
            mod_ub := m2
            off_zero := by intro hz; rw [hpm] at hz; exact absurd hz (by simp) }
    · rw [if_neg hc]
      exact ⟨f1, f2, t1, t2, m1, m2, z⟩
  | setProMode enabled =>
    rw [applyOp, setProModeFn]
    cases enabled
    · rw [if_neg (by simp)]
      constructor <;> simp
    · rw [if_pos rfl]
      exact ⟨f1, f2, t1, t2, m1, m2, by intro hz; exact absurd hz (by simp)⟩
  | loadProfile profile =>
    rw [applyOp, loadProfileFn]
    constructor <;> simp [z]
  | play now =>
    rw [applyOp, playFn]
    split
    · exact ⟨f1, f2, t1, t2, m1, m2, z⟩
    · cases s.currentProfile
      · exact ⟨f1, f2, t1, t2, m1, m2, z⟩
      · exact ⟨f1, f2, t1, t2, m1, m2, z⟩
  | pause =>
    rw [applyOp, pauseFn]
    split
    · exact ⟨f1, f2, t1, t2, m1, m2, z⟩
    · exact ⟨f1, f2, t1, t2, m1, m2, z⟩
  | stop =>
    rw [applyOp, stopFn, pauseFn]
    split
    · exact ⟨f1, f2, t1, t2, m1, m2, z⟩
    · exact ⟨f1, f2, t1, t2, m1, m2, z⟩

theorem adaptiveInv_foldl (ops : List Op) :
    ∀ s : EngineState, AdaptiveInv s → AdaptiveInv (ops.foldl applyOp s) := by
  induction ops with
  | nil => exact fun s h => h
  | cons op rest ih => exact fun s h => ih _ (adaptiveInv_applyOp h op)

theorem adaptiveInv_run (ops : List Op) : AdaptiveInv (run ops) :=
  adaptiveInv_foldl ops initState adaptiveInv_init

/-- The interactions-per-minute rate that `recordInteraction` computes after
incrementing the count: `interactionCount / (elapsed / 60)` with
`elapsed = now - sessionStartTime`. -/
def interactionsPerMinute (s : EngineState) (now : ℚ) : ℚ :=
  ((s.interactionCount + 1 : ℕ) : ℚ) / ((now - s.sessionStartTime) / 60)

/-- C4: after any finite sequence of public operations from the initial
state, each of the three adaptive offsets remains within `[-0.1, +0.1]`. -/
theorem adaptive_offsets_bounded (ops : List Op) :
    (-(1/10) ≤ (run ops).adjustments.frequencyOffset ∧
      (run ops).adjustments.frequencyOffset ≤ 1/10) ∧
    (-(1/10) ≤ (run ops).adjustments.textureOffset ∧
      (run ops).adjustments.textureOffset ≤ 1/10) ∧
    (-(1/10) ≤ (run ops).adjustments.modulationOffset ∧
      (run ops).adjustments.modulationOffset ≤ 1/10) := by
  obtain ⟨f1, f2, t1, t2, m1, m2, _⟩ := adaptiveInv_run ops
  exact ⟨⟨f1, by linarith⟩, ⟨t1, by linarith⟩, ⟨by linarith, m2⟩⟩

/-- C10: in every reachable state, `frequencyOffset` and `textureOffset` lie
in `[-0.1, 0]`, `modulationOffset` lies in `[0, +0.1]`, and whenever Pro Mode
is disabled all three offsets are exactly `0`. -/
theorem adaptive_offsets_signed (ops : List Op) :
    (-(1/10) ≤ (run ops).adjustments.frequencyOffset ∧
      (run ops).adjustments.frequencyOffset ≤ 0) ∧
    (-(1/10) ≤ (run ops).adjustments.textureOffset ∧
      (run ops).adjustments.textureOffset ≤ 0) ∧
    (0 ≤ (run ops).adjustments.modulationOffset ∧
      (run ops).adjustments.modulationOffset ≤ 1/10) ∧
    ((run ops).proModeEnabled = false → (run ops).adjustments = ⟨0, 0, 0⟩) := by
  obtain ⟨f1, f2, t1, t2, m1, m2, z⟩ := adaptiveInv_run ops
  exact ⟨⟨f1, f2⟩, ⟨t1, t2⟩, ⟨m1, m2⟩, z⟩

/-- Witness for C10 at the empty operation sequence, where Pro Mode is
disabled. -/
theorem adaptive_offsets_signed_witness : (run []).adjustments = ⟨0, 0, 0⟩ :=
  (adaptive_offsets_signed []).2.2.2 rfl

/-- C3: in every reachable state the completion signal's `wasAdapted` flag is
true exactly when at least one of the three adaptive offsets is nonzero. -/
theorem wasAdapted_iff_nonzero_offset (ops : List Op) :
    wasAdapted (run ops) = true ↔
      ((run ops).adjustments.frequencyOffset ≠ 0 ∨
       (run ops).adjustments.textureOffset ≠ 0 ∨
       (run ops).adjustments.modulationOffset ≠ 0) := by
  obtain ⟨_, _, _, _, _, _, z⟩ := adaptiveInv_run ops
  rw [wasAdapted]
  cases hpm : (run ops).proModeEnabled with
  | false =>
    rw [z hpm]
    simp
  | true => simp [bne_iff_ne, or_assoc]

/-- C5: `recordInteraction` is a no-op unless Pro Mode is enabled and a
session is playing; otherwise it increments `interactionCount`, computes the
rate `interactionCount / elapsedMinutes`, and adjusts the offsets: for
`rate > 2` it lowers `frequencyOffset` and `textureOffset` by `0.01` floored
at `-0.1`; else for `elapsed > 300` and `rate < 0.5` it raises
`modulationOffset` by `0.005` capped at `+0.1`; otherwise it leaves every
offset unchanged. -/
theorem recordInteraction_spec (s : EngineState) (now : ℚ) :
    (¬ (s.proModeEnabled = true ∧ s.isPlaying = true) → recordInteractionFn now s = s) ∧
    (s.proModeEnabled = true → s.isPlaying = true → 0 < now - s.sessionStartTime →
      (recordInteractionFn now s).interactionCount = s.interactionCount + 1 ∧
      (2 < interactionsPerMinute s now →
        (recordInteractionFn now s).adjustments =
          { s.adjustments with
              frequencyOffset := max (-(1/10)) (s.adjustments.frequencyOffset - 1/100)
              textureOffset := max (-(1/10)) (s.adjustments.textureOffset - 1/100) }) ∧
      (¬ 2 < interactionsPerMinute s now → 300 < now - s.sessionStartTime →
        interactionsPerMinute s now < 1/2 →
        (recordInteractionFn now s).adjustments =
          { s.adjustments with
              modulationOffset := min (1/10) (s.adjustments.modulationOffset + 1/200) }) ∧
      (¬ 2 < interactionsPerMinute s now →
        ¬ (300 < now - s.sessionStartTime ∧ interactionsPerMinute s now < 1/2) →
        (recordInteractionFn now s).adjustments = s.adjustments)) := by
  constructor
  · intro hno
    have hcond : ¬ ((s.proModeEnabled && s.isPlaying) = true) := by
      simpa [Bool.and_eq_true] using hno
    rw [recordInteractionFn, if_neg hcond]
  · intro hpm hip _
    have hcond : (s.proModeEnabled && s.isPlaying) = true := by rw [hpm, hip]; rfl
    simp only [recordInteractionFn, if_pos hcond, interactionsPerMinute]
    refine ⟨trivial, fun h2 => ?_, fun h2 h3 h4 => ?_, fun h2 h34 => ?_⟩
    · show (if 2 < ((s.interactionCount + 1 : ℕ) : ℚ) / ((now - s.sessionStartTime) / 60)
          then _ else _) = _
      rw [if_pos h2]
    · show (if 2 < ((s.interactionCount + 1 : ℕ) : ℚ) / ((now - s.sessionStartTime) / 60)
          then _ else _) = _
      rw [if_neg h2, if_pos ⟨h3, h4⟩]
    · show (if 2 < ((s.interactionCount + 1 : ℕ) : ℚ) / ((now - s.sessionStartTime) / 60)
          then _ else _) = _
      rw [if_neg h2, if_neg h34]

/-- Witness for C5: from a playing Pro Mode state with count `0` and start
time `0`, an interaction at `now = 30` gives rate exactly `2`, which changes
no offset. -/
theorem recordInteraction_spec_witness :
    (recordInteractionFn 30 { initState with isPlaying := true, proModeEnabled := true
      }).interactionCount = 1 ∧
    (recordInteractionFn 30 { initState with isPlaying := true, proModeEnabled := true
      }).adjustments = ⟨0, 0, 0⟩ := by
  have h := (recordInteraction_spec
    { initState with isPlaying := true, proModeEnabled := true } 30).2 rfl rfl (by norm_num [initState])
  exact ⟨h.1, h.2.2.2 (by norm_num [interactionsPerMinute, initState])
    (by norm_num [interactionsPerMinute, initState])⟩

/-- C8: `setProMode(false)` always resets all three adaptive offsets to `0`,
and `loadProfile(profile)` always resets the adaptive state fully — all
offsets and the interaction count to `0` — whether or not a session is
active. -/
theorem proModeOff_loadProfile_reset :
    (∀ s : EngineState, (setProModeFn false s).adjustments = ⟨0, 0, 0⟩) ∧
    (∀ (s : EngineState) (profile : Profile),
      (loadProfileFn profile s).adjustments = ⟨0, 0, 0⟩ ∧
      (loadProfileFn profile s).interactionCount = 0) := by
  refine ⟨fun s => ?_, fun s profile => ⟨rfl, rfl⟩⟩
  rw [setProModeFn, if_neg (by simp)]

/-! ## Frequency mapping (`mapToFrequency`, lines 138-142) -/

/-- `FREQ_MIN` (line 41). -/
def FREQ_MIN : ℝ := 80

/-- `FREQ_MAX` (line 42). -/
def FREQ_MAX : ℝ := 400

/-- `mapToFrequency(value)` (lines 138-142): clamp the perceptual value to
`[0, 1]`, then map exponentially via `FREQ_MIN * (FREQ_MAX / FREQ_MIN) ^ v`
(real exponentiation, `Math.pow`). -/
noncomputable def mapToFrequency (value : ℝ) : ℝ :=
  FREQ_MIN * (FREQ_MAX / FREQ_MIN) ^ (max 0 (min 1 value))

theorem mapToFrequency_of_mem {v : ℝ} (h0 : 0 ≤ v) (h1 : v ≤ 1) :
    mapToFrequency v = 80 * (400/80) ^ v := by
  rw [mapToFrequency, min_eq_right h1, max_eq_right h0, FREQ_MIN, FREQ_MAX]

theorem mapToFrequency_strictOn {a b : ℝ} (ha : 0 ≤ a) (hab : a < b) (hb : b ≤ 1) :
    mapToFrequency a < mapToFrequency b := by
  rw [mapToFrequency_of_mem ha (by linarith), mapToFrequency_of_mem (by linarith) hb]
  have h5 : (1:ℝ) < 400/80 := by norm_num
  exact mul_lt_mul_of_pos_left ((Real.rpow_lt_rpow_left_iff h5).mpr hab)
    (by norm_num : (0:ℝ) < 80)

/-- C7: `frequencyMap(0) = 80`, `frequencyMap(1) = 400`, the map equals
`80 · (400/80)^v` for every `v ∈ [0,1]`, and it is strictly increasing on
`[0,1]`. -/
theorem mapToFrequency_spec :
    mapToFrequency 0 = 80 ∧ mapToFrequency 1 = 400 ∧
    (∀ v : ℝ, 0 ≤ v → v ≤ 1 → mapToFrequency v = 80 * (400/80) ^ v) ∧
    (∀ a b : ℝ, 0 ≤ a → a < b → b ≤ 1 → mapToFrequency a < mapToFrequency b) := by
  refine ⟨?_, ?_, fun v h0 h1 => mapToFrequency_of_mem h0 h1,
    fun a b ha hab hb => mapToFrequency_strictOn ha hab hb⟩
  · rw [mapToFrequency_of_mem le_rfl zero_le_one, Real.rpow_zero]; norm_num
  · rw [mapToFrequency_of_mem zero_le_one le_rfl, Real.rpow_one]; norm_num

/-- Witness for C7 at the endpoints `0 < 1`. -/
theorem mapToFrequency_spec_witness : mapToFrequency 0 < mapToFrequency 1 :=
  mapToFrequency_spec.2.2.2 0 1 le_rfl zero_lt_one le_rfl

/-! ## Modulation (`MODULATION_TYPES` and `applyModulation`, lines 52-56 and
329-346) -/

/-- The `{lfoFreq, lfoDepth}` pair of a modulation type. -/
structure ModulationParams where
  lfoFreq : ℚ
  lfoDepth : ℚ
deriving DecidableEq, Repr

/-- `MODULATION_TYPES` (lines 52-56) together with the lookup-miss fallback
to `stable` applied in `applyModulation` (line 333). -/
def MODULATION_TYPES (type : String) : ModulationParams :=
  if type = "stable" then ⟨0, 0⟩
  else if type = "gentle" then ⟨1/10, 1/50⟩
  else if type = "irregular" then ⟨3/10, 1/20⟩
  else ⟨0, 0⟩

/-- The frequency value `applyModulation` (lines 329-346) pushes to the
oscillator during a tick: `some` value when the LFO frequency is positive,
`none` when the guarded branch does not fire.  `progress` is the session
progress and `time` is `audioContext.currentTime` (the phase time).  Note the
base pitch here is recomputed from the curve alone — `frequencyOffset` is not
added (line 342). -/
noncomputable def applyModulationFreq (profile : Profile) (adj : ProModeAdjustments)
    (progress : ℚ) (time : ℝ) : Option ℝ :=
  if 0 < (MODULATION_TYPES profile.modulation.type).lfoFreq then
    some (mapToFrequency ((interpolateCurve profile.baseFrequencyCurve progress : ℚ) : ℝ) +
      Real.sin (time * ((MODULATION_TYPES profile.modulation.type).lfoFreq : ℝ) * 2 * Real.pi) *
        ((MODULATION_TYPES profile.modulation.type).lfoDepth : ℝ) *
        ((profile.modulation.intensity + adj.modulationOffset : ℚ) : ℝ) * 20)
  else none

/-- The frequency the claim (spec §4.3 steps 1 and 3) prescribes for the same
tick, following the spec's words: base pitch
`frequencyMap(interpolate(baseFrequencyCurve, p) + adaptiveOffset.frequency)`
plus deviation
`sin(2π·lfoFrequencyHz·t) · lfoDepth · (intensity + adaptiveOffset.modulation) · 20`. -/
noncomputable def specSchedulerFreq (profile : Profile) (adj : ProModeAdjustments)
    (progress : ℚ) (time : ℝ) : ℝ :=
  mapToFrequency
      ((interpolateCurve profile.baseFrequencyCurve progress + adj.frequencyOffset : ℚ) : ℝ) +
    Real.sin (2 * Real.pi * ((MODULATION_TYPES profile.modulation.type).lfoFreq : ℝ) * time) *
      ((MODULATION_TYPES profile.modulation.type).lfoDepth : ℝ) *
      ((profile.modulation.intensity + adj.modulationOffset : ℚ) : ℝ) * 20

/-- A concrete profile with gentle modulation and an empty base-frequency
curve. -/
def cexProfile : Profile :=
  { id := "cex"
    name := "cex"
    duration := 60
    baseFrequencyCurve := []
    textureDensityMap := []
    modulation := ⟨"gentle", 1⟩
    silenceBlocks := [] }

/-- An adaptive adjustment with the frequency offset fully lowered. -/
def cexAdjustments : ProModeAdjustments := ⟨-(1/10), 0, 0⟩

theorem MODULATION_TYPES_gentle : MODULATION_TYPES "gentle" = ⟨1/10, 1/50⟩ := by
  rw [show MODULATION_TYPES "gentle"
      = if ("gentle" : String) = "stable" then ⟨0, 0⟩
        else if ("gentle" : String) = "gentle" then ⟨1/10, 1/50⟩
        else if ("gentle" : String) = "irregular" then ⟨3/10, 1/20⟩
        else (⟨0, 0⟩ : ModulationParams) from rfl]
  rw [if_neg (by decide), if_pos rfl]

theorem cex_lfoFreq_pos : 0 < (MODULATION_TYPES cexProfile.modulation.type).lfoFreq := by
  rw [show cexProfile.modulation.type = "gentle" from rfl, MODULATION_TYPES_gentle]
  norm_num

/-- C1 as stated is false: with the gentle profile above, frequency offset
`-0.1`, progress `0` and phase time `0`, the code pushes
`mapToFrequency(0.5)` while the claimed formula yields
`mapToFrequency(0.4)`, and these differ by strict monotonicity. -/
theorem applyModulation_omits_freq_offset_cex :
    applyModulationFreq cexProfile cexAdjustments 0 0 ≠
      some (specSchedulerFreq cexProfile cexAdjustments 0 0) := by
  have hlt : mapToFrequency ((2:ℝ)/5) < mapToFrequency ((1:ℝ)/2) :=
    mapToFrequency_strictOn (by norm_num) (by norm_num) (by norm_num)
  rw [applyModulationFreq, specSchedulerFreq]
  rw [if_pos cex_lfoFreq_pos]
  simp only [ne_eq, Option.some.injEq]
  intro h
  rw [show cexProfile.modulation = ⟨"gentle", 1⟩ from rfl, MODULATION_TYPES_gentle] at h
  rw [show cexProfile.baseFrequencyCurve = [] from rfl] at h
  rw [show interpolateCurve [] 0 = 1/2 from rfl] at h
  rw [show cexAdjustments.frequencyOffset = -(1/10) from rfl] at h
  rw [show ((1:ℚ)/2 + -(1/10)) = 2/5 from by norm_num] at h
  simp only [zero_mul, mul_zero, Real.sin_zero, add_zero] at h
  rw [show (((1:ℚ)/2 : ℚ) : ℝ) = (1:ℝ)/2 from by norm_num] at h
  rw [show (((2:ℚ)/5 : ℚ) : ℝ) = (2:ℝ)/5 from by norm_num] at h
  exact absurd h (ne_of_gt hlt)

/-- C1 (amended): for every profile whose modulation type has a positive LFO
frequency, every progress `p` and phase time `t`, the frequency pushed by the
modulation step equals `frequencyMap(interpolate(baseFrequencyCurve, p))` —
without `adaptiveOffset.frequency` — plus the modulation deviation
`sin(2π·lfoFrequencyHz·t) · lfoDepth · (intensity + adaptiveOffset.modulation) · 20`. -/
theorem applyModulation_frequency_formula (profile : Profile) (adj : ProModeAdjustments)
    (p : ℚ) (t : ℝ)
    (h : 0 < (MODULATION_TYPES profile.modulation.type).lfoFreq) :
    applyModulationFreq profile adj p t =
      some (mapToFrequency ((interpolateCurve profile.baseFrequencyCurve p : ℚ) : ℝ) +
        Real.sin (2 * Real.pi * ((MODULATION_TYPES profile.modulation.type).lfoFreq : ℝ) * t) *
          ((MODULATION_TYPES profile.modulation.type).lfoDepth : ℝ) *
          ((profile.modulation.intensity + adj.modulationOffset : ℚ) : ℝ) * 20) := by
  rw [applyModulationFreq, if_pos h]
  have harg : t * ((MODULATION_TYPES profile.modulation.type).lfoFreq : ℝ) * 2 * Real.pi
      = 2 * Real.pi * ((MODULATION_TYPES profile.modulation.type).lfoFreq : ℝ) * t := by
    ring
  rw [harg]

/-- Witness for the amended C1 at the gentle profile, progress `0` and phase
time `0`. -/
theorem applyModulation_frequency_formula_witness :
    applyModulationFreq cexProfile cexAdjustments 0 0 =
      some (mapToFrequency ((interpolateCurve cexProfile.baseFrequencyCurve 0 : ℚ) : ℝ) +
        Real.sin (2 * Real.pi * ((MODULATION_TYPES cexProfile.modulation.type).lfoFreq : ℝ) * 0) *
          ((MODULATION_TYPES cexProfile.modulation.type).lfoDepth : ℝ) *
          ((cexProfile.modulation.intensity + cexAdjustments.modulationOffset : ℚ) : ℝ) * 20) :=
  applyModulation_frequency_formula cexProfile cexAdjustments 0 0 cex_lfoFreq_pos

end FocusLab
